import Mathlib

/-!
Sidewalk Sidekick: annotation and rewriting of pedestrian maneuvers

A shallow embedding of the correlation-and-rewrite core of `src/index.js`
(`receiveMatch`, `annotateManuever`, `rewriteInstruction`,
`populateInstructions`) together with the properties its specification states.

Modelling conventions.

* A JavaScript value that may be `undefined` is an `Option`.
* Shape indices and edge indices are `Int`. An array read `xs[i]` yields
  `undefined` for every index that is not a position of the array (`jsIndex`).
* Numbers are double-precision floats. `jsMidpoint` is the value of
  `Math.ceil((b + e) / 2)` as the program computes it: the sum is rounded to
  the nearest double, ties to even, and is `Infinity` from `2 ^ 1024` on;
  halving and taking the ceiling of an integer-valued double are exact.
  `midpointIndex` is the exact ceiling. The two are equal whenever
  `|b + e| ≤ 2 ^ 53` (`jsMidpoint_eq_midpointIndex`), and for every array of
  at most `2 ^ 52` elements, which covers every JavaScript array, a read at
  one index returns what a read at the other returns, for all `b` and `e`
  (`jsIndex_midpoint_agree`). The index is used for array reads only, so
  `resolveAuto` carries the exact form.
* A property read on `undefined` raises a `TypeError`; the functions that
  contain such a read without a syntactic guard return `Except String`.
* Strings are sequences of characters; the regular expressions of the source
  are transcribed as matchers on `List Char`. The patterns name ASCII text
  only, and no line terminator or word character lies outside the basic
  plane, so matching by code point and matching by UTF-16 code unit agree.
* Coordinates (`lon`, `lat`) are carried but never inspected by the modelled
  functions; they are kept as integers (micro-degrees).
-/

namespace SidewalkSidekick

/-! ## Data model -/

/-- The `end_node` record of an edge of a `trace_attributes` response. -/
structure EndNode where
  type : Option String
  deriving DecidableEq, Repr

/-- An edge of a `trace_attributes` response. -/
structure Edge where
  names : Option (List String)
  internal_intersection : Bool
  end_node : Option EndNode
  deriving DecidableEq, Repr

/-- A matched point of a `trace_attributes` response. -/
structure MatchedPoint where
  lon : Int
  lat : Int
  edge_index : Option Int
  deriving DecidableEq, Repr

/-- A `trace_attributes` response (one per costing model). -/
structure MatchedTrace where
  matched_points : List MatchedPoint
  edges : List Edge
  deriving DecidableEq, Repr

/-- A maneuver of the route leg, with the fields the program adds to it. -/
structure Maneuver where
  instruction : String
  begin_shape_index : Int
  end_shape_index : Int
  name : Option String
  pedestrianPoint : Option MatchedPoint
  pedestrianEdge : Option Edge
  autoPoint : Option MatchedPoint
  autoEdge : Option Edge
  rewritten_instruction : Option String
  deriving DecidableEq, Repr

/-- The route leg `routeResponse.trip.legs[0]`; `shape` is the decoded polyline. -/
structure RouteLeg where
  shape : List (Int × Int)
  maneuvers : List Maneuver
  deriving DecidableEq, Repr

/-- One `<li>` element appended by `populateInstructions`. -/
structure ListItem where
  className : String
  text : String
  deriving DecidableEq, Repr

/-! ## JavaScript primitives -/

/-- Array read `xs[i]`: `undefined` unless `i` is a position of `xs`. -/
def jsIndex {α : Type} (xs : List α) (i : Int) : Option α :=
  if 0 ≤ i then xs[i.toNat]? else none

/-- Truthiness of a value that is a string or `undefined`. -/
def jsTruthy : Option String → Bool
  | none => false
  | some s => decide (s ≠ "")

/-- Interpolation of a string-or-`undefined` value into a template literal. -/
def jsToString : Option String → String
  | none => "undefined"
  | some s => s

/-- The expression `a || d` for a string-or-`undefined` value `a`. -/
def jsOr (a : Option String) (d : String) : String :=
  match a with
  | some s => if s ≠ "" then s else d
  | none => d

/-- The expression `edge?.names?.[0]`. -/
def firstName (edge : Option Edge) : Option String :=
  match edge with
  | none => none
  | some e =>
    match e.names with
    | none => none
    | some ns => ns.head?

/-- The expression `point && trace.edges[point.edge_index]`. -/
def edgeOfPoint (trace : MatchedTrace) (point : Option MatchedPoint) : Option Edge :=
  match point with
  | none => none
  | some p =>
    match p.edge_index with
    | none => none
    | some k => jsIndex trace.edges k

/-- The exact ceiling of `(b + e) / 2`, computed as the negated floor of the
negated quotient (integer division by a positive divisor rounds down). It is
the value of `Math.ceil((b + e) / 2)` whenever the sum is exact in double
precision, see `jsMidpoint`. -/
def midpointIndex (b e : Int) : Int :=
  -((-(b + e)) / 2)

/-- The spacing of the doubles around the magnitude `a`: the least power of two
`u` with `a / u < 2 ^ 53`, found by halving `a` at most `fuel` times. -/
def ulpAux : Nat → Nat → Nat
  | 0, _ => 1
  | fuel + 1, a => if a < 2 ^ 53 then 1 else 2 * ulpAux fuel (a / 2)

/-- The spacing of the doubles around the magnitude `a`. -/
def ulp (a : Nat) : Nat := ulpAux a a

/-- The magnitude `a` rounded to a 53-bit significand, to nearest, ties to
even. -/
def roundNearestEven (a : Nat) : Nat :=
  let u := ulp a
  let q := a / u
  let r := a % u
  if u < 2 * r ∨ (2 * r = u ∧ q % 2 = 1) then (q + 1) * u else q * u

/-- The double nearest to the integer `n`; `none` stands for an infinity, which
is the result once the rounded magnitude reaches `2 ^ 1024`. -/
def toDouble (n : Int) : Option Int :=
  let r := roundNearestEven n.natAbs
  if r < (2 ^ 128) ^ 8 then some (Int.sign n * (r : Int)) else none

/-- The expression `Math.ceil((b + e) / 2)` of `annotateManuever` on two
integer-valued doubles: the sum is rounded, the quotient and the ceiling are
exact. `none` stands for an infinity. -/
def jsMidpoint (b e : Int) : Option Int :=
  match toDouble (b + e) with
  | none => none
  | some x => some (-((-x) / 2))

/-- Array read `xs[i]` for a number `i` that may be an infinity. -/
def jsIndexNum {α : Type} (xs : List α) (i : Option Int) : Option α :=
  match i with
  | none => none
  | some k => jsIndex xs k

/-! ## `annotateManuever` -/

/-- The condition
`!autoEdge || (autoEdge.end_node && autoEdge.end_node.type === "street_intersection")`. -/
def atStreetIntersection (autoEdge : Option Edge) : Bool :=
  match autoEdge with
  | none => true
  | some e =>
    match e.end_node with
    | none => false
    | some n => decide (n.type = some "street_intersection")

/-- The local variables of `annotateManuever` after its first `if` statement. -/
structure Lookup where
  shapeIndex : Int
  autoPoint : Option MatchedPoint
  autoEdge : Option Edge
  deriving DecidableEq, Repr

/-- The first part of `annotateManuever`: the vehicle lookup at
`begin_shape_index` and its single repetition at the midpoint. -/
def resolveAuto (maneuver : Maneuver) (autoResponse : MatchedTrace) : Lookup :=
  let shapeIndex := maneuver.begin_shape_index
  let autoPoint := jsIndex autoResponse.matched_points shapeIndex
  let autoEdge := edgeOfPoint autoResponse autoPoint
  if atStreetIntersection autoEdge then
    let shapeIndex := midpointIndex maneuver.begin_shape_index maneuver.end_shape_index
    let autoPoint := jsIndex autoResponse.matched_points shapeIndex
    let autoEdge := edgeOfPoint autoResponse autoPoint
    { shapeIndex := shapeIndex, autoPoint := autoPoint, autoEdge := autoEdge }
  else
    { shapeIndex := shapeIndex, autoPoint := autoPoint, autoEdge := autoEdge }

/-- The function `annotateManuever`. The read `autoPoint.edge_index` of the
assignment to `pedestrianEdge` has no guard of its own and is evaluated when
`pedestrianPoint` is truthy. -/
def annotateManuever (maneuver : Maneuver) (pedestrianResponse autoResponse : MatchedTrace) :
    Except String Maneuver :=
  let l := resolveAuto maneuver autoResponse
  let name := firstName l.autoEdge
  if !jsTruthy name then
    Except.ok maneuver
  else
    let pedestrianPoint := jsIndex pedestrianResponse.matched_points l.shapeIndex
    match pedestrianPoint with
    | none =>
      Except.ok { maneuver with
        pedestrianPoint := none
        pedestrianEdge := none
        autoPoint := l.autoPoint
        autoEdge := l.autoEdge }
    | some pp =>
      match l.autoPoint with
      | none => Except.error "TypeError: autoPoint is undefined"
      | some ap =>
        Except.ok { maneuver with
          pedestrianPoint := some pp
          pedestrianEdge :=
            match ap.edge_index with
            | none => none
            | some k => jsIndex pedestrianResponse.edges k
          autoPoint := some ap
          autoEdge := l.autoEdge }

/-! ## Regular expressions of `rewriteInstruction`

Every pattern is anchored with `^` and is used through `String.prototype.match`
without flags, so a match starts at the first character and `.` matches one
character that is not a line terminator. A matcher consumes a prefix of its
input and returns what remains; the alternatives `left|right` and
`walkway|crosswalk` start with different letters, and the longest run of word
characters is the only one that a space can follow, so no pattern has a second
way of matching that backtracking could reach. -/

/-- The line terminators excluded by `.`: LF, CR, U+2028 and U+2029. -/
def isLineTerminator (c : Char) : Bool :=
  c = Char.ofNat 10 || c = Char.ofNat 13 || c = Char.ofNat 8232 || c = Char.ofNat 8233

/-- The class `\w`: ASCII letters, ASCII digits and the underscore. -/
def isWordChar (c : Char) : Bool :=
  c.isAlphanum || c = Char.ofNat 95

/-- Literal text `p` at the head of `s`. -/
def lit (p : List Char) (s : List Char) : Option (List Char) :=
  match p, s with
  | [], s => some s
  | _ :: _, [] => none
  | a :: p, b :: s => if a = b then lit p s else none

/-- The pattern `.`. -/
def dot : List Char → Option (List Char)
  | [] => none
  | c :: s => if isLineTerminator c then none else some s

/-- The capturing group `(left|right)`. -/
def leftOrRight (s : List Char) : Option (String × List Char) :=
  match lit "left".data s with
  | some r => some ("left", r)
  | none =>
    match lit "right".data s with
    | some r => some ("right", r)
    | none => none

/-- The group `(walkway|crosswalk)`. -/
def walkwayOrCrosswalk (s : List Char) : Option (List Char) :=
  match lit "walkway".data s with
  | some r => some r
  | none => lit "crosswalk".data s

/-- The capturing group `(\w+)`. -/
def wordRun (s : List Char) : Option (String × List Char) :=
  match s.takeWhile isWordChar with
  | [] => none
  | w => some (String.mk w, s.dropWhile isWordChar)

/-- The first capture of `/^Turn (left|right)/`. -/
def matchTurn (s : List Char) : Option String := do
  let r ← lit "Turn ".data s
  let (d, _) ← leftOrRight r
  pure d

/-- The first capture of `/^Turn (left|right) onto the crosswalk./`. -/
def matchTurnCrosswalk (s : List Char) : Option String := do
  let r ← lit "Turn ".data s
  let (d, r) ← leftOrRight r
  let r ← lit " onto the crosswalk".data r
  let _ ← dot r
  pure d

/-- The first capture of `/^Turn (left|right) onto the (walkway|crosswalk)./`. -/
def matchTurnOnto (s : List Char) : Option String := do
  let r ← lit "Turn ".data s
  let (d, r) ← leftOrRight r
  let r ← lit " onto the ".data r
  let r ← walkwayOrCrosswalk r
  let _ ← dot r
  pure d

/-- The first capture of `/^Walk (\w+) on the (walkway|crosswalk)./`. -/
def matchWalk (s : List Char) : Option String := do
  let r ← lit "Walk ".data s
  let (w, r) ← wordRun r
  let r ← lit " on the ".data r
  let r ← walkwayOrCrosswalk r
  let _ ← dot r
  pure w

/-! ## `rewriteInstruction` -/

/-- The function `rewriteInstruction`: the returned boolean and the maneuver
after the call. -/
def rewriteInstruction (maneuver : Maneuver) (prevManeuver nextManeuver : Option Maneuver) :
    Bool × Maneuver :=
  match maneuver.autoEdge with
  | none => (false, maneuver)
  | some autoEdge =>
    let autoName := firstName (some autoEdge)
    if autoEdge.internal_intersection then
      let name := maneuver.name
      let prevAutoName := firstName (prevManeuver.bind fun p => p.autoEdge)
      let nextAutoName := firstName (nextManeuver.bind fun n => n.autoEdge)
      let name := if !jsTruthy name && decide (prevAutoName = nextAutoName) then prevAutoName else name
      let direction :=
        match matchTurn maneuver.instruction.data with
        | some d => " to your " ++ d
        | none => ""
      (true, { maneuver with
        rewritten_instruction :=
          some ("At " ++ jsToString autoName ++ ", cross " ++ jsOr name "the street" ++ direction ++ ".") })
    else
      match matchTurnCrosswalk maneuver.instruction.data with
      | some d =>
        (true, { maneuver with
          rewritten_instruction :=
            some ("Cross " ++ jsToString autoName ++ " at the crosswalk to your " ++ d ++ ".") })
      | none =>
        match matchTurnOnto maneuver.instruction.data with
        | some d =>
          (true, { maneuver with
            rewritten_instruction :=
              some ("Turn " ++ d ++ " and follow " ++ jsToString autoName ++ ".") })
        | none =>
          match matchWalk maneuver.instruction.data with
          | some w =>
            (true, { maneuver with
              rewritten_instruction :=
                some ("Walk " ++ w ++ " along " ++ jsToString autoName ++ ".") })
          | none => (false, maneuver)

/-! ## `populateInstructions` and `receiveMatch` -/

/-- The list item `populateInstructions` appends for one maneuver: its class
name and the text `maneuver.rewritten_instruction || maneuver.instruction`.
The click handler and the decoded coordinates it reads are not modelled. -/
def instructionItem (maneuver : Maneuver) : ListItem :=
  { className := if jsTruthy maneuver.rewritten_instruction then "rewritten" else ""
    text := jsOr maneuver.rewritten_instruction maneuver.instruction }

/-- The items `populateInstructions` appends to the list, in order. -/
def populateInstructions (leg : RouteLeg) : List ListItem :=
  leg.maneuvers.map instructionItem

/-- The loop `for (let maneuver of routeLeg.maneuvers) annotateManuever(...)`. -/
def annotateLoop (pedestrianResponse autoResponse : MatchedTrace) :
    List Maneuver → Except String (List Maneuver)
  | [] => Except.ok []
  | m :: ms =>
    match annotateManuever m pedestrianResponse autoResponse with
    | Except.error err => Except.error err
    | Except.ok m1 =>
      match annotateLoop pedestrianResponse autoResponse ms with
      | Except.error err => Except.error err
      | Except.ok rest => Except.ok (m1 :: rest)

/-- The `forEach` of `receiveMatch`: the maneuvers are rewritten in order; the
previous maneuver has been rewritten already, the next one not yet. -/
def rewriteLoop : Option Maneuver → List Maneuver → List Maneuver
  | _, [] => []
  | prev, m :: ms =>
    let m1 := (rewriteInstruction m prev ms.head?).2
    m1 :: rewriteLoop (some m1) ms

/-- The function `receiveMatch` on the leg `routeResponse.trip.legs[0]`: the
leg after annotation and rewriting, and the items added to the list. -/
def receiveMatch (routeLeg : RouteLeg) (pedestrianResponse autoResponse : MatchedTrace) :
    Except String (RouteLeg × List ListItem) :=
  match annotateLoop pedestrianResponse autoResponse routeLeg.maneuvers with
  | Except.error err => Except.error err
  | Except.ok annotated =>
    let leg : RouteLeg := { routeLeg with maneuvers := rewriteLoop none annotated }
    Except.ok (leg, populateInstructions leg)

/-! ## Derived forms used in the statements -/

/-- The maneuver `annotateManuever` produces when the edge it found is named. -/
def annotated (m : Maneuver) (ped : MatchedTrace) (l : Lookup) : Maneuver :=
  { m with
    pedestrianPoint := jsIndex ped.matched_points l.shapeIndex
    pedestrianEdge :=
      match jsIndex ped.matched_points l.shapeIndex with
      | none => none
      | some _ => edgeOfPoint ped l.autoPoint
    autoPoint := l.autoPoint
    autoEdge := l.autoEdge }

/-! ## Fixtures -/

/-- A maneuver as received from the routing service: no added field. -/
def freshManeuver (instruction : String) (b e : Int) : Maneuver :=
  { instruction := instruction
    begin_shape_index := b
    end_shape_index := e
    name := none
    pedestrianPoint := none
    pedestrianEdge := none
    autoPoint := none
    autoEdge := none
    rewritten_instruction := none }

/-- A named edge that is not internal to an intersection. -/
def namedEdge (n : String) : Edge :=
  { names := some [n], internal_intersection := false, end_node := none }

/-- A matched point without an edge reference. -/
def unsnapped : MatchedPoint := { lon := 0, lat := 0, edge_index := none }

/-- A matched point snapped to edge `k`. -/
def snapped (k : Int) : MatchedPoint := { lon := 0, lat := 0, edge_index := some k }

/-- Scenario A: six matched points, the last one on Elm Street. -/
def traceA : MatchedTrace :=
  { matched_points := [unsnapped, unsnapped, unsnapped, unsnapped, unsnapped, snapped 0]
    edges := [namedEdge "Elm Street"] }

/-- Scenario A: the maneuver. -/
def maneuverA : Maneuver := freshManeuver "Turn left onto the crosswalk." 5 5

/-- Scenario C: the vehicle trace has no edge at index 10 and 5th Ave at index 11. -/
def traceC : MatchedTrace :=
  { matched_points :=
      [unsnapped, unsnapped, unsnapped, unsnapped, unsnapped, unsnapped, unsnapped,
       unsnapped, unsnapped, unsnapped, unsnapped, snapped 0, unsnapped]
    edges := [namedEdge "5th Ave"] }

/-- Scenario C: the maneuver. -/
def maneuverC : Maneuver := freshManeuver "Turn right onto the walkway." 10 12

/-- A named edge internal to an intersection. -/
def internalEdge (n : String) : Edge :=
  { names := some [n], internal_intersection := true, end_node := none }

/-- The ambiguous fixture: a crosswalk turn annotated with an internal edge. -/
def maneuverAmbiguous : Maneuver :=
  { freshManeuver "Turn left onto the crosswalk." 5 5 with
    autoEdge := some (internalEdge "Elm Street") }

/-- Scenario D: a neighbour annotated with the edge of street `n`. -/
def neighbour (n : String) : Maneuver :=
  { freshManeuver "Walk north on the walkway." 0 1 with autoEdge := some (namedEdge n) }

/-- Scenario D: a maneuver without a name of its own on an internal edge. -/
def maneuverD : Maneuver :=
  { freshManeuver "Continue." 2 3 with autoEdge := some (internalEdge "Main St") }

/-- Scenario C: a pedestrian trace whose point at index 11 is snapped to its
second edge, while the vehicle point at index 11 refers to position 0. -/
def pedC : MatchedTrace :=
  { matched_points :=
      [unsnapped, unsnapped, unsnapped, unsnapped, unsnapped, unsnapped, unsnapped,
       unsnapped, unsnapped, unsnapped, unsnapped, snapped 1, unsnapped]
    edges := [namedEdge "north sidewalk", namedEdge "south sidewalk"] }

/-- A maneuver whose shape indices lie beyond the thirteen points of scenario C. -/
def maneuverBeyond : Maneuver := freshManeuver "Turn left onto the crosswalk." 20 25

/-- A misaligned input: a decoded shape of three coordinates. -/
def legMisaligned : RouteLeg :=
  { shape := [(0, 0), (1, 1), (2, 2)]
    maneuvers := [freshManeuver "Turn left onto the crosswalk." 0 0] }

/-- A misaligned input: a pedestrian trace of one matched point. -/
def pedMisaligned : MatchedTrace :=
  { matched_points := [snapped 0], edges := [namedEdge "north sidewalk"] }

/-- A misaligned input: a vehicle trace of one matched point. -/
def autoMisaligned : MatchedTrace :=
  { matched_points := [snapped 0], edges := [namedEdge "Elm Street"] }

/-- An edge without any name. -/
def unnamedEdge : Edge :=
  { names := some [], internal_intersection := true, end_node := none }

/-- Scenario B: a vehicle trace whose only edge has no name. -/
def traceB : MatchedTrace :=
  { matched_points := [snapped 0, snapped 0], edges := [unnamedEdge] }

/-- Scenario B: the maneuver. -/
def maneuverB : Maneuver := freshManeuver "Turn left onto the crosswalk." 0 1

/-- Scenario B: the route leg. -/
def legB : RouteLeg :=
  { shape := [(0, 0), (1, 1)], maneuvers := [maneuverB] }

/-- A walkway turn annotated with the edge of Elm Street. -/
def maneuverWalkway : Maneuver :=
  { freshManeuver "Turn right onto the walkway." 3 4 with
    autoEdge := some (namedEdge "Elm Street") }

/-! ## The midpoint -/

theorem midpointIndex_eq_ceil (b e : Int) :
    midpointIndex b e = Int.ceil (((b + e : Int) : ℚ) / 2) := by
  unfold midpointIndex
  symm
  rw [Int.ceil_eq_iff]
  obtain ⟨q, hq⟩ : ∃ q : Int, q = -(b + e) / 2 := ⟨_, rfl⟩
  rw [← hq]
  have h1 : 2 * q ≤ -(b + e) := by omega
  have h2 : -(b + e) < 2 * q + 2 := by omega
  have h1q : ((2 * q : Int) : ℚ) ≤ ((-(b + e) : Int) : ℚ) := by exact_mod_cast h1
  have h2q : ((-(b + e) : Int) : ℚ) < ((2 * q + 2 : Int) : ℚ) := by exact_mod_cast h2
  push_cast at h1q h2q ⊢
  constructor <;> linarith

/-! ## Lemmas on the lookup and on `annotateManuever` -/

theorem midpointIndex_eq_div (b e : Int) : midpointIndex b e = (b + e + 1) / 2 := by
  unfold midpointIndex
  omega

theorem ulpAux_pos (fuel a : Nat) : 0 < ulpAux fuel a := by
  induction fuel generalizing a with
  | zero => simp [ulpAux]
  | succ f ih =>
    unfold ulpAux
    split
    · exact Nat.one_pos
    · have := ih (a / 2)
      omega

theorem ulpAux_of_lt (fuel a : Nat) (h : a < 2 ^ 53) : ulpAux fuel a = 1 := by
  cases fuel with
  | zero => rfl
  | succ f =>
    unfold ulpAux
    rw [if_pos h]

theorem ulpAux_lower (fuel a : Nat) (h : 2 ^ 52 ≤ a) : 2 ^ 52 * ulpAux fuel a ≤ a := by
  induction fuel generalizing a with
  | zero => simpa [ulpAux] using h
  | succ f ih =>
    unfold ulpAux
    split
    · simpa using h
    · have h2 : 2 ^ 52 ≤ a / 2 := by omega
      have := ih (a / 2) h2
      omega

theorem ulpAux_upper (fuel a : Nat) (h : a < 2 ^ 53 * 2 ^ fuel) :
    a < 2 ^ 53 * ulpAux fuel a := by
  induction fuel generalizing a with
  | zero => simpa [ulpAux] using h
  | succ f ih =>
    unfold ulpAux
    split
    · rename_i hlt
      simpa using hlt
    · have h2 : a / 2 < 2 ^ 53 * 2 ^ f := by
        rw [pow_succ] at h
        omega
      have := ih (a / 2) h2
      omega

/-- The significand left by `ulp` has at most 53 bits. -/
theorem ulp_upper (a : Nat) : a < 2 ^ 53 * ulp a := by
  apply ulpAux_upper
  have h1 : a < 2 ^ a := Nat.lt_two_pow a
  have h2 : 1 * 2 ^ a ≤ 2 ^ 53 * 2 ^ a := Nat.mul_le_mul_right _ (by norm_num)
  omega

theorem ulp_ge_two (a : Nat) (h : 2 ^ 53 ≤ a) : 2 ≤ ulp a := by
  unfold ulp
  cases a with
  | zero => simp at h
  | succ n =>
    unfold ulpAux
    have hn : ¬ n + 1 < 2 ^ 53 := by omega
    simp only [hn, if_false]
    have := ulpAux_pos n ((n + 1) / 2)
    omega

theorem roundNearestEven_of_le (a : Nat) (h : a ≤ 2 ^ 53) : roundNearestEven a = a := by
  rcases Nat.lt_or_ge a (2 ^ 53) with hlt | hge
  · unfold roundNearestEven ulp
    simp [ulpAux_of_lt a a hlt, Nat.mod_one]
  · have : a = 2 ^ 53 := Nat.le_antisymm h hge
    subst this
    decide

theorem roundNearestEven_ge (a : Nat) (h : 2 ^ 53 ≤ a) : 2 ^ 53 ≤ roundNearestEven a := by
  have hu := ulp_ge_two a h
  have hl : 2 ^ 52 * ulp a ≤ a := ulpAux_lower a a (by omega)
  have hq : 2 ^ 52 ≤ a / ulp a := (Nat.le_div_iff_mul_le (by omega)).2 hl
  have hmul : 2 ^ 52 * 2 ≤ a / ulp a * ulp a := Nat.mul_le_mul hq hu
  have hmul2 : a / ulp a * ulp a ≤ (a / ulp a + 1) * ulp a :=
    Nat.mul_le_mul_right _ (Nat.le_succ _)
  unfold roundNearestEven
  simp only []
  split <;> omega

theorem toDouble_of_natAbs_le (n : Int) (h : n.natAbs ≤ 2 ^ 53) : toDouble n = some n := by
  unfold toDouble
  simp only [roundNearestEven_of_le _ h]
  have hlt : n.natAbs < (2 ^ 128) ^ 8 :=
    lt_of_le_of_lt h (by norm_num)
  simp only [hlt, if_true, Int.sign_mul_natAbs]

theorem toDouble_pos_ge (n x : Int) (h : 2 ^ 53 ≤ n) (hx : toDouble n = some x) :
    2 ^ 53 ≤ x := by
  unfold toDouble at hx
  simp only [] at hx
  split at hx
  · simp only [Option.some.injEq] at hx
    have hs : Int.sign n = 1 := Int.sign_eq_one_of_pos (by omega)
    have hr := roundNearestEven_ge n.natAbs (by omega)
    rw [hs] at hx
    omega
  · exact absurd hx (by simp)

theorem toDouble_neg_le (n x : Int) (h : n ≤ -2 ^ 53) (hx : toDouble n = some x) :
    x ≤ -2 ^ 53 := by
  unfold toDouble at hx
  simp only [] at hx
  split at hx
  · simp only [Option.some.injEq] at hx
    have hs : Int.sign n = -1 := Int.sign_eq_neg_one_of_neg (by omega)
    have hr := roundNearestEven_ge n.natAbs (by omega)
    rw [hs] at hx
    omega
  · exact absurd hx (by simp)

/-- Within the range in which the sum is exact, the program computes the exact
ceiling. -/
theorem jsMidpoint_eq_midpointIndex (b e : Int) (h : (b + e).natAbs ≤ 2 ^ 53) :
    jsMidpoint b e = some (midpointIndex b e) := by
  unfold jsMidpoint midpointIndex
  rw [toDouble_of_natAbs_le _ h]

theorem jsIndex_eq_none_of_neg {α : Type} (xs : List α) (i : Int) (h : i < 0) :
    jsIndex xs i = none := by
  unfold jsIndex
  simp [not_le.2 h]

theorem resolveAuto_edge (m : Maneuver) (auto : MatchedTrace) :
    (resolveAuto m auto).autoEdge = edgeOfPoint auto (resolveAuto m auto).autoPoint := by
  unfold resolveAuto
  simp only []
  split <;> rfl

theorem resolveAuto_point (m : Maneuver) (auto : MatchedTrace) :
    (resolveAuto m auto).autoPoint = jsIndex auto.matched_points (resolveAuto m auto).shapeIndex := by
  unfold resolveAuto
  simp only []
  split <;> rfl

theorem edgeOfPoint_some {trace : MatchedTrace} {point : Option MatchedPoint} {e : Edge}
    (h : edgeOfPoint trace point = some e) :
    ∃ p k, point = some p ∧ p.edge_index = some k ∧ jsIndex trace.edges k = some e := by
  unfold edgeOfPoint at h
  cases point with
  | none => simp at h
  | some p =>
    cases hk : p.edge_index with
    | none => simp [hk] at h
    | some k => exact ⟨p, k, rfl, hk, by simpa [hk] using h⟩

theorem jsTruthy_firstName_some {edge : Option Edge} (h : jsTruthy (firstName edge) = true) :
    ∃ e, edge = some e := by
  cases edge with
  | none => simp [firstName, jsTruthy] at h
  | some e => exact ⟨e, rfl⟩

theorem annotateManuever_named (m : Maneuver) (ped auto : MatchedTrace)
    (h : jsTruthy (firstName (resolveAuto m auto).autoEdge) = true) :
    annotateManuever m ped auto = Except.ok (annotated m ped (resolveAuto m auto)) := by
  obtain ⟨e, he⟩ := jsTruthy_firstName_some h
  have hedge := resolveAuto_edge m auto
  rw [he] at hedge
  obtain ⟨p, k, hp, hk, _⟩ := edgeOfPoint_some hedge.symm
  unfold annotateManuever annotated
  simp only [h, Bool.not_true, Bool.false_eq_true, if_false, hp]
  cases hpp : jsIndex ped.matched_points (resolveAuto m auto).shapeIndex with
  | none => rfl
  | some pp => simp [edgeOfPoint, hk]

theorem annotateManuever_unnamed (m : Maneuver) (ped auto : MatchedTrace)
    (h : jsTruthy (firstName (resolveAuto m auto).autoEdge) = false) :
    annotateManuever m ped auto = Except.ok m := by
  unfold annotateManuever
  simp [h]

theorem lit_append (p rest : List Char) : lit p (p ++ rest) = some rest := by
  induction p with
  | nil => cases rest <;> rfl
  | cons a p ih => simp [lit, ih]

theorem annotateManuever_eq (m : Maneuver) (ped auto : MatchedTrace) :
    annotateManuever m ped auto =
      Except.ok (if jsTruthy (firstName (resolveAuto m auto).autoEdge) = true
        then annotated m ped (resolveAuto m auto) else m) := by
  cases h : jsTruthy (firstName (resolveAuto m auto).autoEdge) with
  | true => simpa using annotateManuever_named m ped auto h
  | false => simpa using annotateManuever_unnamed m ped auto h

theorem jsIndex_eq_none_of_le {α : Type} (xs : List α) (i : Int)
    (h : (xs.length : Int) ≤ i) : jsIndex xs i = none := by
  unfold jsIndex
  split
  · rw [List.getElem?_eq_none_iff]
    omega
  · rfl

/-- On every array of at most `2 ^ 52` elements, the read at the index the
program computes and the read at the exact ceiling return the same, for all
`b` and `e`. -/
theorem jsIndex_midpoint_agree {α : Type} (xs : List α) (b e : Int)
    (hlen : xs.length ≤ 2 ^ 52) :
    jsIndexNum xs (jsMidpoint b e) = jsIndex xs (midpointIndex b e) := by
  by_cases h : (b + e).natAbs ≤ 2 ^ 53
  · rw [jsMidpoint_eq_midpointIndex b e h]
    rfl
  · rcases Int.lt_or_le (b + e) 0 with hneg | hpos
    · have hn : b + e ≤ -2 ^ 53 := by omega
      have hm : midpointIndex b e < 0 := by
        unfold midpointIndex
        omega
      rw [jsIndex_eq_none_of_neg xs _ hm]
      unfold jsMidpoint
      cases hx : toDouble (b + e) with
      | none => rfl
      | some x =>
        have := toDouble_neg_le _ x hn hx
        exact jsIndex_eq_none_of_neg xs _ (by omega)
    · have hp : 2 ^ 53 ≤ b + e := by omega
      have hm : (xs.length : Int) ≤ midpointIndex b e := by
        unfold midpointIndex
        omega
      rw [jsIndex_eq_none_of_le xs _ hm]
      unfold jsMidpoint
      cases hx : toDouble (b + e) with
      | none => rfl
      | some x =>
        have := toDouble_pos_ge _ x hp hx
        exact jsIndex_eq_none_of_le xs _ (by omega)

theorem jsIndex_isSome_iff {α : Type} (xs : List α) (i : Int) :
    (jsIndex xs i).isSome = true ↔ 0 ≤ i ∧ i < (xs.length : Int) := by
  unfold jsIndex
  split
  · rename_i h
    rw [Option.isSome_iff_exists]
    simp only [List.getElem?_eq_some_iff, h, true_and]
    constructor
    · rintro ⟨_, hlt, _⟩
      omega
    · intro hlt
      exact ⟨_, by omega, rfl⟩
  · rename_i h
    simp [h]

theorem annotateLoop_eq (ped auto : MatchedTrace) (ms : List Maneuver) :
    annotateLoop ped auto ms =
      Except.ok (ms.map fun m =>
        if jsTruthy (firstName (resolveAuto m auto).autoEdge) = true
          then annotated m ped (resolveAuto m auto) else m) := by
  induction ms with
  | nil => rfl
  | cons m ms ih =>
    unfold annotateLoop
    rw [annotateManuever_eq, ih]
    rfl

theorem rewriteLoop_length (prev : Option Maneuver) (ms : List Maneuver) :
    (rewriteLoop prev ms).length = ms.length := by
  induction ms generalizing prev with
  | nil => rfl
  | cons m ms ih => simp [rewriteLoop, ih]

theorem rewriteLoop_getElem (prev : Option Maneuver) (ms : List Maneuver) (i : Nat)
    (m : Maneuver) (h : ms[i]? = some m) :
    ∃ p n, (rewriteLoop prev ms)[i]? = some (rewriteInstruction m p n).2 := by
  induction ms generalizing prev i with
  | nil => simp at h
  | cons m0 ms ih =>
    cases i with
    | zero =>
      simp only [List.getElem?_cons_zero, Option.some.injEq] at h
      subst h
      exact ⟨prev, ms.head?, by simp [rewriteLoop]⟩
    | succ j =>
      simp only [List.getElem?_cons_succ] at h
      obtain ⟨p, n, hpn⟩ := ih (some (rewriteInstruction m0 prev ms.head?).2) j h
      exact ⟨p, n, by simpa [rewriteLoop] using hpn⟩

theorem rewriteInstruction_unannotated (m : Maneuver) (prev next : Option Maneuver)
    (h : m.autoEdge = none) : rewriteInstruction m prev next = (false, m) := by
  unfold rewriteInstruction
  rw [h]

theorem receiveMatch_eq (leg : RouteLeg) (ped auto : MatchedTrace) :
    receiveMatch leg ped auto =
      Except.ok
        ({ leg with
            maneuvers := rewriteLoop none (leg.maneuvers.map fun m =>
              if jsTruthy (firstName (resolveAuto m auto).autoEdge) = true
                then annotated m ped (resolveAuto m auto) else m) },
          populateInstructions { leg with
            maneuvers := rewriteLoop none (leg.maneuvers.map fun m =>
              if jsTruthy (firstName (resolveAuto m auto).autoEdge) = true
                then annotated m ped (resolveAuto m auto) else m) }) := by
  unfold receiveMatch
  rw [annotateLoop_eq]

/-! ## Lemmas on the matchers -/

theorem lit_eq_some_iff (p s r : List Char) : lit p s = some r ↔ s = p ++ r := by
  induction p generalizing s with
  | nil => cases s <;> simp [lit, eq_comm]
  | cons a p ih =>
    cases s with
    | nil => simp [lit]
    | cons b s =>
      by_cases hab : a = b
      · subst hab
        simp [lit, ih]
      · have hba : ¬ b = a := fun h => hab h.symm
        simp [lit, hab, hba]

theorem lit_eq_none_iff (p s : List Char) : lit p s = none ↔ ¬ p <+: s := by
  constructor
  · rintro h ⟨r, hr⟩
    rw [← hr, lit_append] at h
    exact Option.noConfusion h
  · intro h
    cases hl : lit p s with
    | none => rfl
    | some r => exact absurd ⟨r, ((lit_eq_some_iff p s r).1 hl).symm⟩ h

theorem dot_eq_some_iff (s r : List Char) :
    dot s = some r ↔ ∃ c, s = c :: r ∧ isLineTerminator c = false := by
  cases s with
  | nil => simp [dot]
  | cons c s =>
    cases hc : isLineTerminator c
    · constructor
      · intro h
        simp only [dot, hc, Bool.false_eq_true, if_false, Option.some.injEq] at h
        exact ⟨c, by rw [h], hc⟩
      · rintro ⟨c1, h, _⟩
        simp only [List.cons.injEq] at h
        simp only [dot, hc, Bool.false_eq_true, if_false, h.2]
    · constructor
      · intro h
        simp [dot, hc] at h
      · rintro ⟨c1, h, hc1⟩
        simp only [List.cons.injEq] at h
        rw [← h.1, hc] at hc1
        exact Bool.noConfusion hc1

theorem leftOrRight_eq_some_iff (s r : List Char) (d : String) :
    leftOrRight s = some (d, r) ↔
      (d = "left" ∧ s = "left".data ++ r) ∨ (d = "right" ∧ s = "right".data ++ r) := by
  unfold leftOrRight
  cases h1 : lit "left".data s with
  | some r1 =>
    have hs := (lit_eq_some_iff _ _ _).1 h1
    subst hs
    constructor
    · intro h
      simp only [Option.some.injEq, Prod.mk.injEq] at h
      exact Or.inl ⟨h.1.symm, by rw [h.2]⟩
    · rintro (⟨hd, hs⟩ | ⟨_, hs⟩)
      · simp only [List.append_cancel_left_eq] at hs
        simp [hd, hs]
      · simp at hs
  | none =>
    have hn := (lit_eq_none_iff _ _).1 h1
    cases h2 : lit "right".data s with
    | some r2 =>
      have hs := (lit_eq_some_iff _ _ _).1 h2
      subst hs
      constructor
      · intro h
        simp only [Option.some.injEq, Prod.mk.injEq] at h
        exact Or.inr ⟨h.1.symm, by rw [h.2]⟩
      · rintro (⟨_, hs⟩ | ⟨hd, hs⟩)
        · simp at hs
        · simp only [List.append_cancel_left_eq] at hs
          simp [hd, hs]
    | none =>
      have hn2 := (lit_eq_none_iff _ _).1 h2
      constructor
      · intro h
        simp at h
      · rintro (⟨_, hs⟩ | ⟨_, hs⟩)
        · exact absurd ⟨r, hs.symm⟩ hn
        · exact absurd ⟨r, hs.symm⟩ hn2

theorem walkwayOrCrosswalk_eq_some_iff (s r : List Char) :
    walkwayOrCrosswalk s = some r ↔ s = "walkway".data ++ r ∨ s = "crosswalk".data ++ r := by
  unfold walkwayOrCrosswalk
  cases h1 : lit "walkway".data s with
  | some r1 =>
    have hs := (lit_eq_some_iff _ _ _).1 h1
    subst hs
    constructor
    · intro h
      simp only [Option.some.injEq] at h
      exact Or.inl (by rw [h])
    · rintro (hs | hs)
      · simp only [List.append_cancel_left_eq] at hs
        simp [hs]
      · simp at hs
  | none =>
    have hn := (lit_eq_none_iff _ _).1 h1
    simp only [lit_eq_some_iff]
    constructor
    · intro h
      exact Or.inr h
    · rintro (hs | hs)
      · exact absurd ⟨r, hs.symm⟩ hn
      · exact hs

theorem matchTurn_chain (s : List Char) (d : String) :
    matchTurn s = some d ↔
      ∃ r1 r2, lit "Turn ".data s = some r1 ∧ leftOrRight r1 = some (d, r2) := by
  simp only [matchTurn, bind, pure, Option.bind_eq_some, Prod.exists]
  constructor
  · rintro ⟨r1, h1, d2, r2, h2, h⟩
    simp only [Option.some.injEq] at h
    subst h
    exact ⟨r1, r2, h1, h2⟩
  · rintro ⟨r1, r2, h1, h2⟩
    exact ⟨r1, h1, d, r2, h2, rfl⟩

theorem matchTurnCrosswalk_chain (s : List Char) (d : String) :
    matchTurnCrosswalk s = some d ↔
      ∃ r1 r2 r3 r4, lit "Turn ".data s = some r1 ∧ leftOrRight r1 = some (d, r2) ∧
        lit " onto the crosswalk".data r2 = some r3 ∧ dot r3 = some r4 := by
  simp only [matchTurnCrosswalk, bind, pure, Option.bind_eq_some, Prod.exists]
  constructor
  · rintro ⟨r1, h1, d2, r2, h2, r3, h3, r4, h4, h⟩
    simp only [Option.some.injEq] at h
    subst h
    exact ⟨r1, r2, r3, r4, h1, h2, h3, h4⟩
  · rintro ⟨r1, r2, r3, r4, h1, h2, h3, h4⟩
    exact ⟨r1, h1, d, r2, h2, r3, h3, r4, h4, rfl⟩

theorem matchTurnOnto_chain (s : List Char) (d : String) :
    matchTurnOnto s = some d ↔
      ∃ r1 r2 r3 r4 r5, lit "Turn ".data s = some r1 ∧ leftOrRight r1 = some (d, r2) ∧
        lit " onto the ".data r2 = some r3 ∧ walkwayOrCrosswalk r3 = some r4 ∧
        dot r4 = some r5 := by
  simp only [matchTurnOnto, bind, pure, Option.bind_eq_some, Prod.exists]
  constructor
  · rintro ⟨r1, h1, d2, r2, h2, r3, h3, r4, h4, r5, h5, h⟩
    simp only [Option.some.injEq] at h
    subst h
    exact ⟨r1, r2, r3, r4, r5, h1, h2, h3, h4, h5⟩
  · rintro ⟨r1, r2, r3, r4, r5, h1, h2, h3, h4, h5⟩
    exact ⟨r1, h1, d, r2, h2, r3, h3, r4, h4, r5, h5, rfl⟩

theorem matchWalk_chain (s : List Char) (w : String) :
    matchWalk s = some w ↔
      ∃ r1 r2 r3 r4 r5, lit "Walk ".data s = some r1 ∧ wordRun r1 = some (w, r2) ∧
        lit " on the ".data r2 = some r3 ∧ walkwayOrCrosswalk r3 = some r4 ∧
        dot r4 = some r5 := by
  simp only [matchWalk, bind, pure, Option.bind_eq_some, Prod.exists]
  constructor
  · rintro ⟨r1, h1, d2, r2, h2, r3, h3, r4, h4, r5, h5, h⟩
    simp only [Option.some.injEq] at h
    subst h
    exact ⟨r1, r2, r3, r4, r5, h1, h2, h3, h4, h5⟩
  · rintro ⟨r1, r2, r3, r4, r5, h1, h2, h3, h4, h5⟩
    exact ⟨r1, h1, w, r2, h2, r3, h3, r4, h4, r5, h5, rfl⟩

theorem matchTurn_iff (s : List Char) (d : String) :
    matchTurn s = some d ↔
      (d = "left" ∨ d = "right") ∧ ("Turn ".data ++ d.data) <+: s := by
  rw [matchTurn_chain]
  simp only [lit_eq_some_iff, leftOrRight_eq_some_iff]
  constructor
  · rintro ⟨r1, r2, h1, (⟨hd, h2⟩ | ⟨hd, h2⟩)⟩
    · subst h1 h2 hd
      exact ⟨Or.inl rfl, r2, by simp⟩
    · subst h1 h2 hd
      exact ⟨Or.inr rfl, r2, by simp⟩
  · rintro ⟨hd, r, hr⟩
    refine ⟨d.data ++ r, r, by simp [← hr], ?_⟩
    rcases hd with hd | hd
    · exact Or.inl ⟨hd, by rw [hd]⟩
    · exact Or.inr ⟨hd, by rw [hd]⟩

theorem matchTurnCrosswalk_iff (s : List Char) (d : String) :
    matchTurnCrosswalk s = some d ↔
      (d = "left" ∨ d = "right") ∧
        ∃ c r, s = "Turn ".data ++ d.data ++ " onto the crosswalk".data ++ c :: r ∧
          isLineTerminator c = false := by
  rw [matchTurnCrosswalk_chain]
  simp only [lit_eq_some_iff, leftOrRight_eq_some_iff, dot_eq_some_iff]
  constructor
  · rintro ⟨r1, r2, r3, r4, h1, (⟨hd, h2⟩ | ⟨hd, h2⟩), h3, c, h4, hc⟩
    · subst h1 h2 h3 h4 hd
      exact ⟨Or.inl rfl, c, r4, by simp, hc⟩
    · subst h1 h2 h3 h4 hd
      exact ⟨Or.inr rfl, c, r4, by simp, hc⟩
  · rintro ⟨hd, c, r, hs, hc⟩
    refine ⟨d.data ++ " onto the crosswalk".data ++ c :: r, " onto the crosswalk".data ++ c :: r,
      c :: r, r, by simp [hs], ?_, rfl, c, rfl, hc⟩
    rcases hd with hd | hd
    · exact Or.inl ⟨hd, by rw [hd]; simp⟩
    · exact Or.inr ⟨hd, by rw [hd]; simp⟩

theorem matchTurnOnto_iff (s : List Char) (d : String) :
    matchTurnOnto s = some d ↔
      (d = "left" ∨ d = "right") ∧
        ∃ w c r, (w = "walkway".data ∨ w = "crosswalk".data) ∧
          s = "Turn ".data ++ d.data ++ " onto the ".data ++ w ++ c :: r ∧
          isLineTerminator c = false := by
  rw [matchTurnOnto_chain]
  simp only [lit_eq_some_iff, leftOrRight_eq_some_iff, walkwayOrCrosswalk_eq_some_iff,
    dot_eq_some_iff]
  constructor
  · rintro ⟨r1, r2, r3, r4, r5, h1, hlr, h3, hw, c, h5, hc⟩
    have key : ∃ w, (w = "walkway".data ∨ w = "crosswalk".data) ∧ r3 = w ++ c :: r5 := by
      rcases hw with hw | hw
      · exact ⟨_, Or.inl rfl, by rw [hw, h5]⟩
      · exact ⟨_, Or.inr rfl, by rw [hw, h5]⟩
    obtain ⟨w, hw2, hr3⟩ := key
    rcases hlr with ⟨hd, h2⟩ | ⟨hd, h2⟩
    · refine ⟨Or.inl hd, w, c, r5, hw2, ?_, hc⟩
      rw [h1, h2, h3, hr3, hd]
      simp
    · refine ⟨Or.inr hd, w, c, r5, hw2, ?_, hc⟩
      rw [h1, h2, h3, hr3, hd]
      simp
  · rintro ⟨hd, w, c, r, hw, hs, hc⟩
    refine ⟨d.data ++ " onto the ".data ++ w ++ c :: r, " onto the ".data ++ w ++ c :: r,
      w ++ c :: r, c :: r, r, by simp [hs], ?_, by simp, ?_, c, rfl, hc⟩
    · rcases hd with hd | hd
      · exact Or.inl ⟨hd, by rw [hd]; simp⟩
      · exact Or.inr ⟨hd, by rw [hd]; simp⟩
    · rcases hw with hw | hw
      · exact Or.inl (by rw [hw])
      · exact Or.inr (by rw [hw])

/-! ## The branches of `rewriteInstruction` -/

theorem rewriteInstruction_internal (m : Maneuver) (prev next : Option Maneuver) (e : Edge)
    (hedge : m.autoEdge = some e) (hint : e.internal_intersection = true) :
    rewriteInstruction m prev next =
      (true, { m with
        rewritten_instruction :=
          some ("At " ++ jsToString (firstName (some e)) ++ ", cross "
            ++ jsOr (if !jsTruthy m.name && decide (firstName (prev.bind fun p => p.autoEdge)
                  = firstName (next.bind fun n => n.autoEdge))
                then firstName (prev.bind fun p => p.autoEdge) else m.name) "the street"
            ++ (match matchTurn m.instruction.data with
                | some d => " to your " ++ d
                | none => "") ++ ".") }) := by
  unfold rewriteInstruction
  rw [hedge]
  simp only [hint, if_true]

theorem rewriteInstruction_crosswalk (m : Maneuver) (prev next : Option Maneuver) (e : Edge)
    (d : String) (hedge : m.autoEdge = some e) (hint : e.internal_intersection = false)
    (h2 : matchTurnCrosswalk m.instruction.data = some d) :
    rewriteInstruction m prev next =
      (true, { m with
        rewritten_instruction :=
          some ("Cross " ++ jsToString (firstName (some e)) ++ " at the crosswalk to your "
            ++ d ++ ".") }) := by
  unfold rewriteInstruction
  rw [hedge]
  simp only [hint, Bool.false_eq_true, if_false, h2]

theorem rewriteInstruction_onto (m : Maneuver) (prev next : Option Maneuver) (e : Edge)
    (d : String) (hedge : m.autoEdge = some e) (hint : e.internal_intersection = false)
    (h2 : matchTurnCrosswalk m.instruction.data = none)
    (h3 : matchTurnOnto m.instruction.data = some d) :
    rewriteInstruction m prev next =
      (true, { m with
        rewritten_instruction :=
          some ("Turn " ++ d ++ " and follow " ++ jsToString (firstName (some e)) ++ ".") }) := by
  unfold rewriteInstruction
  rw [hedge]
  simp only [hint, Bool.false_eq_true, if_false, h2, h3]

theorem rewriteInstruction_walk (m : Maneuver) (prev next : Option Maneuver) (e : Edge)
    (w : String) (hedge : m.autoEdge = some e) (hint : e.internal_intersection = false)
    (h2 : matchTurnCrosswalk m.instruction.data = none)
    (h3 : matchTurnOnto m.instruction.data = none)
    (h4 : matchWalk m.instruction.data = some w) :
    rewriteInstruction m prev next =
      (true, { m with
        rewritten_instruction :=
          some ("Walk " ++ w ++ " along " ++ jsToString (firstName (some e)) ++ ".") }) := by
  unfold rewriteInstruction
  rw [hedge]
  simp only [hint, Bool.false_eq_true, if_false, h2, h3, h4]

theorem rewriteInstruction_no_rule (m : Maneuver) (prev next : Option Maneuver) (e : Edge)
    (hedge : m.autoEdge = some e) (hint : e.internal_intersection = false)
    (h2 : matchTurnCrosswalk m.instruction.data = none)
    (h3 : matchTurnOnto m.instruction.data = none)
    (h4 : matchWalk m.instruction.data = none) :
    rewriteInstruction m prev next = (false, m) := by
  unfold rewriteInstruction
  rw [hedge]
  simp only [hint, Bool.false_eq_true, if_false, h2, h3, h4]

/-! ## Claims -/

/-- C9 fails on the code for a sum that is not exact in double precision:
with `begin = 1` and `end = 2 ^ 53` the program computes 4503599627370496,
while `ceil((begin + end) / 2)` is 4503599627370497. -/
theorem midpoint_index_rounds_sum :
    (0 : Int) ≤ 1 ∧ (1 : Int) ≤ 2 ^ 53 ∧
    jsMidpoint 1 (2 ^ 53) = some 4503599627370496 ∧
    Int.ceil ((((1 : Int) + 2 ^ 53 : Int) : ℚ) / 2) = 4503599627370497 ∧
    jsMidpoint 1 (2 ^ 53) ≠ some (Int.ceil ((((1 : Int) + 2 ^ 53 : Int) : ℚ) / 2)) := by
  have hceil : Int.ceil ((((1 : Int) + 2 ^ 53 : Int) : ℚ) / 2) = 4503599627370497 :=
    (midpointIndex_eq_ceil 1 (2 ^ 53)).symm.trans (by decide)
  refine ⟨by decide, by decide, by decide, hceil, ?_⟩
  rw [hceil]
  decide

/-- C9 as amended: for integers `0 ≤ begin ≤ end` with `begin + end ≤ 2 ^ 53`,
the range in which the double-precision sum is exact, the fallback index the
program computes (the shape index `annotateManuever` uses once the lookup at
`begin` is ambiguous) is `ceil((begin + end) / 2)`, which is
`(begin + end + 1) div 2`; it lies between `begin` and `end`, is `begin` when
`begin = end`, and is `end` when `end = begin + 1`. -/
theorem midpoint_index_exact_range (m : Maneuver) (auto : MatchedTrace)
    (hb : 0 ≤ m.begin_shape_index) (hbe : m.begin_shape_index ≤ m.end_shape_index)
    (hsum : m.begin_shape_index + m.end_shape_index ≤ 2 ^ 53) :
    ∃ i : Int,
      jsMidpoint m.begin_shape_index m.end_shape_index = some i ∧
      (atStreetIntersection
          (edgeOfPoint auto (jsIndex auto.matched_points m.begin_shape_index)) = true →
        (resolveAuto m auto).shapeIndex = i) ∧
      i = Int.ceil (((m.begin_shape_index + m.end_shape_index : Int) : ℚ) / 2) ∧
      i = (m.begin_shape_index + m.end_shape_index + 1) / 2 ∧
      m.begin_shape_index ≤ i ∧
      i ≤ m.end_shape_index ∧
      (m.begin_shape_index = m.end_shape_index → i = m.begin_shape_index) ∧
      (m.end_shape_index = m.begin_shape_index + 1 → i = m.end_shape_index) := by
  have habs : (m.begin_shape_index + m.end_shape_index).natAbs ≤ 2 ^ 53 := by omega
  refine ⟨midpointIndex m.begin_shape_index m.end_shape_index,
    jsMidpoint_eq_midpointIndex _ _ habs, ?_, midpointIndex_eq_ceil _ _,
    midpointIndex_eq_div _ _, ?_, ?_, ?_, ?_⟩
  · intro h
    unfold resolveAuto
    simp [h]
  all_goals rw [midpointIndex_eq_div]
  all_goals omega

theorem midpoint_index_exact_range_witness :
    (0 : Int) ≤ maneuverC.begin_shape_index ∧
    maneuverC.begin_shape_index ≤ maneuverC.end_shape_index ∧
    maneuverC.begin_shape_index + maneuverC.end_shape_index ≤ 2 ^ 53 ∧
    jsMidpoint maneuverC.begin_shape_index maneuverC.end_shape_index = some 11 ∧
    ∃ i : Int,
      jsMidpoint maneuverC.begin_shape_index maneuverC.end_shape_index = some i ∧
      (atStreetIntersection
          (edgeOfPoint traceC
            (jsIndex traceC.matched_points maneuverC.begin_shape_index)) = true →
        (resolveAuto maneuverC traceC).shapeIndex = i) ∧
      i = Int.ceil (((maneuverC.begin_shape_index + maneuverC.end_shape_index : Int) : ℚ) / 2) ∧
      i = (maneuverC.begin_shape_index + maneuverC.end_shape_index + 1) / 2 ∧
      maneuverC.begin_shape_index ≤ i ∧
      i ≤ maneuverC.end_shape_index ∧
      (maneuverC.begin_shape_index = maneuverC.end_shape_index →
        i = maneuverC.begin_shape_index) ∧
      (maneuverC.end_shape_index = maneuverC.begin_shape_index + 1 →
        i = maneuverC.end_shape_index) :=
  ⟨by decide, by decide, by decide, by decide,
    midpoint_index_exact_range maneuverC traceC (by decide) (by decide) (by decide)⟩

/-- C1: a maneuver for which `annotateManuever` finds a vehicle edge with a
non-empty first name `N` and `internal_intersection` false, and whose
instruction begins with "Turn D onto the crosswalk." for `D` left or right, is
annotated with that edge, and `rewriteInstruction` then returns true and sets
`rewritten_instruction` to "Cross N at the crosswalk to your D.". -/
theorem turn_onto_crosswalk_rewritten (m : Maneuver) (ped auto : MatchedTrace)
    (prev next : Option Maneuver) (e : Edge) (D N rest : String)
    (hD : D = "left" ∨ D = "right") (hN : N ≠ "")
    (hedge : (resolveAuto m auto).autoEdge = some e)
    (hname : firstName (some e) = some N)
    (hint : e.internal_intersection = false)
    (hinstr : m.instruction = "Turn " ++ D ++ " onto the crosswalk." ++ rest) :
    ∃ m1, annotateManuever m ped auto = Except.ok m1 ∧ m1.autoEdge = some e ∧
      rewriteInstruction m1 prev next =
        (true, { m1 with
          rewritten_instruction :=
            some ("Cross " ++ N ++ " at the crosswalk to your " ++ D ++ ".") }) := by
  have htr : jsTruthy (firstName (resolveAuto m auto).autoEdge) = true := by
    rw [hedge, hname]
    simp [jsTruthy, hN]
  refine ⟨annotated m ped (resolveAuto m auto), annotateManuever_named m ped auto htr, hedge, ?_⟩
  have hmatch : matchTurnCrosswalk m.instruction.data = some D := by
    rw [matchTurnCrosswalk_iff]
    refine ⟨hD, '.', rest.data, ?_, by decide⟩
    rw [hinstr]
    simp [String.data_append]
  have hm : matchTurnCrosswalk (annotated m ped (resolveAuto m auto)).instruction.data
      = some D := hmatch
  have he : (annotated m ped (resolveAuto m auto)).autoEdge = some e := hedge
  unfold rewriteInstruction
  rw [he]
  simp only [hint, Bool.false_eq_true, if_false, hm, hname, jsToString]

theorem turn_onto_crosswalk_rewritten_witness :
    (∃ m1, annotateManuever maneuverA traceA traceA = Except.ok m1 ∧
      m1.autoEdge = some (namedEdge "Elm Street") ∧
      rewriteInstruction m1 none none =
        (true, { m1 with
          rewritten_instruction :=
            some ("Cross " ++ "Elm Street" ++ " at the crosswalk to your " ++ "left" ++ ".") })) ∧
    "Cross " ++ "Elm Street" ++ " at the crosswalk to your " ++ "left" ++ "."
      = "Cross Elm Street at the crosswalk to your left." :=
  ⟨turn_onto_crosswalk_rewritten maneuverA traceA traceA none none (namedEdge "Elm Street")
      "left" "Elm Street" "" (by decide) (by decide) (by decide) (by decide) (by decide)
      (by decide),
    by decide⟩

/-- C2: when the attached `autoEdge` has `internal_intersection` true,
`rewriteInstruction` returns true for every instruction text and the rewritten
instruction is "At autoName, cross street suffix.", where the street is the
own name of the maneuver, else the name shared by the previous and the next
maneuver, else "the street", and the suffix is " to your left" or
" to your right" when the instruction starts with "Turn left" or "Turn right"
and empty otherwise; the result is never a text starting with "Cross ", so it
is never the text of rule 2. -/
theorem internal_intersection_rule_first (m : Maneuver) (prev next : Option Maneuver)
    (e : Edge) (hedge : m.autoEdge = some e) (hint : e.internal_intersection = true) :
    ∃ street suffix : String,
      rewriteInstruction m prev next =
        (true, { m with
          rewritten_instruction :=
            some ("At " ++ jsToString (firstName (some e)) ++ ", cross " ++ street
              ++ suffix ++ ".") }) ∧
      (jsTruthy m.name = true → street = jsToString m.name) ∧
      (jsTruthy m.name = false →
        firstName (prev.bind fun p => p.autoEdge) = firstName (next.bind fun n => n.autoEdge) →
        jsTruthy (firstName (prev.bind fun p => p.autoEdge)) = true →
        street = jsToString (firstName (prev.bind fun p => p.autoEdge))) ∧
      (jsTruthy m.name = false →
        (firstName (prev.bind fun p => p.autoEdge) ≠ firstName (next.bind fun n => n.autoEdge) ∨
          jsTruthy (firstName (prev.bind fun p => p.autoEdge)) = false) →
        street = "the street") ∧
      ("Turn left".data <+: m.instruction.data → suffix = " to your left") ∧
      ("Turn right".data <+: m.instruction.data → suffix = " to your right") ∧
      (¬ "Turn left".data <+: m.instruction.data →
        ¬ "Turn right".data <+: m.instruction.data → suffix = "") ∧
      ∀ tail : String,
        (rewriteInstruction m prev next).2.rewritten_instruction ≠ some ("Cross " ++ tail) := by
  have hrw : rewriteInstruction m prev next =
      (true, { m with
        rewritten_instruction :=
          some ("At " ++ jsToString (firstName (some e)) ++ ", cross "
            ++ jsOr (if !jsTruthy m.name && decide (firstName (prev.bind fun p => p.autoEdge)
                  = firstName (next.bind fun n => n.autoEdge))
                then firstName (prev.bind fun p => p.autoEdge) else m.name) "the street"
            ++ (match matchTurn m.instruction.data with
                | some d => " to your " ++ d
                | none => "") ++ ".") }) := by
    unfold rewriteInstruction
    rw [hedge]
    simp only [hint, if_true]
  refine ⟨_, _, hrw, ?_, ?_, ?_, ?_, ?_, ?_, ?_⟩
  · intro h
    rw [h]
    simp only [Bool.not_true, Bool.false_and, Bool.false_eq_true, if_false]
    cases hn : m.name with
    | none => simp [hn, jsTruthy] at h
    | some x =>
      have hx : x ≠ "" := by simpa [hn, jsTruthy] using h
      simp [jsOr, jsToString, hx]
  · intro h heq htr
    rw [h]
    simp only [Bool.not_false, Bool.true_and, heq, decide_True, if_true]
    rw [heq] at htr
    cases hn : firstName (next.bind fun n => n.autoEdge) with
    | none => simp [hn, jsTruthy] at htr
    | some x =>
      have hx : x ≠ "" := by simpa [hn, jsTruthy] using htr
      simp [jsOr, jsToString, hx]
  · intro h hor
    rw [h]
    simp only [Bool.not_false, Bool.true_and]
    by_cases heq : firstName (prev.bind fun p => p.autoEdge)
        = firstName (next.bind fun n => n.autoEdge)
    · rcases hor with hne | hf
      · exact absurd heq hne
      · simp only [heq, decide_True, if_true]
        rw [heq] at hf
        cases hn : firstName (next.bind fun n => n.autoEdge) with
        | none => rfl
        | some x =>
          have hx : x = "" := by simpa [hn, jsTruthy] using hf
          simp [jsOr, hx]
    · simp only [heq, decide_False, Bool.false_eq_true, if_false]
      cases hn : m.name with
      | none => rfl
      | some x =>
        have hx : x = "" := by simpa [hn, jsTruthy] using h
        simp [jsOr, hx]
  · intro hp
    have : matchTurn m.instruction.data = some "left" :=
      (matchTurn_iff _ _).2 ⟨Or.inl rfl, hp⟩
    rw [this]
    rfl
  · intro hp
    have : matchTurn m.instruction.data = some "right" :=
      (matchTurn_iff _ _).2 ⟨Or.inr rfl, hp⟩
    rw [this]
    rfl
  · intro hl hr
    cases hmt : matchTurn m.instruction.data with
    | none => rfl
    | some d =>
      obtain ⟨hd, hp⟩ := (matchTurn_iff _ _).1 hmt
      rcases hd with hd | hd
      · rw [hd] at hp
        exact absurd hp hl
      · rw [hd] at hp
        exact absurd hp hr
  · intro tail
    rw [hrw]
    intro h
    simp only [Option.some.injEq] at h
    have hd := congrArg String.data h
    simp [String.data_append] at hd

theorem internal_intersection_rule_first_witness :
    (∃ street suffix : String,
      rewriteInstruction maneuverAmbiguous none none =
        (true, { maneuverAmbiguous with
          rewritten_instruction :=
            some ("At " ++ jsToString (firstName (some (internalEdge "Elm Street")))
              ++ ", cross " ++ street ++ suffix ++ ".") }) ∧
      (jsTruthy maneuverAmbiguous.name = true → street = jsToString maneuverAmbiguous.name) ∧
      (jsTruthy maneuverAmbiguous.name = false →
        firstName ((none : Option Maneuver).bind fun p => p.autoEdge)
          = firstName ((none : Option Maneuver).bind fun n => n.autoEdge) →
        jsTruthy (firstName ((none : Option Maneuver).bind fun p => p.autoEdge)) = true →
        street = jsToString (firstName ((none : Option Maneuver).bind fun p => p.autoEdge))) ∧
      (jsTruthy maneuverAmbiguous.name = false →
        (firstName ((none : Option Maneuver).bind fun p => p.autoEdge)
            ≠ firstName ((none : Option Maneuver).bind fun n => n.autoEdge) ∨
          jsTruthy (firstName ((none : Option Maneuver).bind fun p => p.autoEdge)) = false) →
        street = "the street") ∧
      ("Turn left".data <+: maneuverAmbiguous.instruction.data → suffix = " to your left") ∧
      ("Turn right".data <+: maneuverAmbiguous.instruction.data → suffix = " to your right") ∧
      (¬ "Turn left".data <+: maneuverAmbiguous.instruction.data →
        ¬ "Turn right".data <+: maneuverAmbiguous.instruction.data → suffix = "") ∧
      ∀ tail : String,
        (rewriteInstruction maneuverAmbiguous none none).2.rewritten_instruction
          ≠ some ("Cross " ++ tail)) ∧
    (rewriteInstruction maneuverAmbiguous none none).2.rewritten_instruction
      = some "At Elm Street, cross the street to your left." :=
  ⟨internal_intersection_rule_first maneuverAmbiguous none none (internalEdge "Elm Street")
      (by decide) (by decide),
    by decide⟩

/-- C3: for a maneuver on an `internal_intersection` vehicle edge that has no
street name of its own, `rewriteInstruction` sets a rewritten instruction
that contains "cross S" when the previous and the next maneuver both carry the
vehicle-edge first name `S`, a non-empty string, and that contains
"cross the street" when the two names differ or one of the neighbours is
missing or carries no vehicle-edge name. -/
theorem crossing_names_shared_street (m : Maneuver) (prev next : Option Maneuver) (e : Edge)
    (hedge : m.autoEdge = some e) (hint : e.internal_intersection = true)
    (hown : jsTruthy m.name = false) :
    ∃ r : String,
      rewriteInstruction m prev next = (true, { m with rewritten_instruction := some r }) ∧
      (∀ S : String, S ≠ "" →
        firstName (prev.bind fun p => p.autoEdge) = some S →
        firstName (next.bind fun n => n.autoEdge) = some S →
        ("cross " ++ S).data <:+: r.data) ∧
      ((firstName (prev.bind fun p => p.autoEdge) ≠ firstName (next.bind fun n => n.autoEdge) ∨
          firstName (prev.bind fun p => p.autoEdge) = none ∨
          firstName (next.bind fun n => n.autoEdge) = none) →
        "cross the street".data <:+: r.data) := by
  have hrw : rewriteInstruction m prev next =
      (true, { m with
        rewritten_instruction :=
          some ("At " ++ jsToString (firstName (some e)) ++ ", cross "
            ++ jsOr (if !jsTruthy m.name && decide (firstName (prev.bind fun p => p.autoEdge)
                  = firstName (next.bind fun n => n.autoEdge))
                then firstName (prev.bind fun p => p.autoEdge) else m.name) "the street"
            ++ (match matchTurn m.instruction.data with
                | some d => " to your " ++ d
                | none => "") ++ ".") }) := by
    unfold rewriteInstruction
    rw [hedge]
    simp only [hint, if_true]
  have hsub : ∀ a b c d : String,
      ("cross " ++ b).data <:+: (a ++ ", cross " ++ b ++ c ++ d).data := by
    intro a b c d
    refine ⟨a.data ++ ", ".data, c.data ++ d.data, ?_⟩
    simp [String.data_append]
  refine ⟨_, hrw, ?_, ?_⟩
  · intro S hS hp hn
    have hst : jsOr (if !jsTruthy m.name && decide (firstName (prev.bind fun p => p.autoEdge)
          = firstName (next.bind fun n => n.autoEdge))
        then firstName (prev.bind fun p => p.autoEdge) else m.name) "the street" = S := by
      simp [hown, hp, hn, jsOr, hS]
    rw [hst]
    exact hsub _ _ _ _
  · intro hor
    have hst : jsOr (if !jsTruthy m.name && decide (firstName (prev.bind fun p => p.autoEdge)
          = firstName (next.bind fun n => n.autoEdge))
        then firstName (prev.bind fun p => p.autoEdge) else m.name) "the street"
        = "the street" := by
      have hname : jsOr m.name "the street" = "the street" := by
        cases hn : m.name with
        | none => rfl
        | some x =>
          have hx : x = "" := by simpa [hn, jsTruthy] using hown
          simp [jsOr, hx]
      by_cases heq : firstName (prev.bind fun p => p.autoEdge)
          = firstName (next.bind fun n => n.autoEdge)
      · have hnone : firstName (prev.bind fun p => p.autoEdge) = none := by
          rcases hor with h | h | h
          · exact absurd heq h
          · exact h
          · rw [heq]
            exact h
        simp [hown, heq.symm, hnone, jsOr]
      · simp only [hown, heq, Bool.not_false, Bool.true_and, decide_False, Bool.false_eq_true,
          if_false]
        exact hname
    rw [hst]
    exact hsub _ _ _ _

theorem crossing_names_shared_street_witness :
    (∃ r : String,
      rewriteInstruction maneuverD (some (neighbour "Oak St")) (some (neighbour "Pine St"))
        = (true, { maneuverD with rewritten_instruction := some r }) ∧
      (∀ S : String, S ≠ "" →
        firstName ((some (neighbour "Oak St")).bind fun p => p.autoEdge) = some S →
        firstName ((some (neighbour "Pine St")).bind fun n => n.autoEdge) = some S →
        ("cross " ++ S).data <:+: r.data) ∧
      ((firstName ((some (neighbour "Oak St")).bind fun p => p.autoEdge)
            ≠ firstName ((some (neighbour "Pine St")).bind fun n => n.autoEdge) ∨
          firstName ((some (neighbour "Oak St")).bind fun p => p.autoEdge) = none ∨
          firstName ((some (neighbour "Pine St")).bind fun n => n.autoEdge) = none) →
        "cross the street".data <:+: r.data)) ∧
    (rewriteInstruction maneuverD (some (neighbour "Oak St"))
        (some (neighbour "Oak St"))).2.rewritten_instruction
      = some "At Main St, cross Oak St." ∧
    (rewriteInstruction maneuverD (some (neighbour "Oak St"))
        (some (neighbour "Pine St"))).2.rewritten_instruction
      = some "At Main St, cross the street." :=
  ⟨crossing_names_shared_street maneuverD (some (neighbour "Oak St"))
      (some (neighbour "Pine St")) (internalEdge "Main St") (by decide) (by decide) (by decide),
    by decide, by decide⟩

/-- C4: the vehicle edge is first resolved at `begin_shape_index`; when no
edge is found there, or the edge found has `end_node.type` equal to
"street_intersection", the lookup is redone once at
`ceil((begin + end) / 2)` and the point and edge found at that index are the
ones `annotateManuever` uses, whatever that edge is; otherwise the point and
edge at `begin_shape_index` are used. -/
theorem ambiguity_check_once (m : Maneuver) (ped auto : MatchedTrace) :
    ∃ l : Lookup,
      resolveAuto m auto = l ∧
      annotateManuever m ped auto =
        Except.ok (if jsTruthy (firstName l.autoEdge) = true then annotated m ped l else m) ∧
      l.autoPoint = jsIndex auto.matched_points l.shapeIndex ∧
      l.autoEdge = edgeOfPoint auto (jsIndex auto.matched_points l.shapeIndex) ∧
      ((edgeOfPoint auto (jsIndex auto.matched_points m.begin_shape_index) = none ∨
          ∃ e n, edgeOfPoint auto (jsIndex auto.matched_points m.begin_shape_index) = some e ∧
            e.end_node = some n ∧ n.type = some "street_intersection") →
        l.shapeIndex
          = Int.ceil (((m.begin_shape_index + m.end_shape_index : Int) : ℚ) / 2)) ∧
      (¬ (edgeOfPoint auto (jsIndex auto.matched_points m.begin_shape_index) = none ∨
          ∃ e n, edgeOfPoint auto (jsIndex auto.matched_points m.begin_shape_index) = some e ∧
            e.end_node = some n ∧ n.type = some "street_intersection") →
        l.shapeIndex = m.begin_shape_index) := by
  have hcond : atStreetIntersection
        (edgeOfPoint auto (jsIndex auto.matched_points m.begin_shape_index)) = true ↔
      (edgeOfPoint auto (jsIndex auto.matched_points m.begin_shape_index) = none ∨
        ∃ e n, edgeOfPoint auto (jsIndex auto.matched_points m.begin_shape_index) = some e ∧
          e.end_node = some n ∧ n.type = some "street_intersection") := by
    cases h0 : edgeOfPoint auto (jsIndex auto.matched_points m.begin_shape_index) with
    | none => simp [atStreetIntersection]
    | some e =>
      cases hn : e.end_node with
      | none => simp [atStreetIntersection, hn]
      | some n => simp [atStreetIntersection, hn]
  refine ⟨resolveAuto m auto, rfl, annotateManuever_eq m ped auto, resolveAuto_point m auto, ?_,
    ?_, ?_⟩
  · rw [← resolveAuto_point]
    exact resolveAuto_edge m auto
  · intro h
    rw [← midpointIndex_eq_ceil]
    unfold resolveAuto
    simp only [hcond.2 h, if_true]
  · intro h
    have hf : atStreetIntersection
        (edgeOfPoint auto (jsIndex auto.matched_points m.begin_shape_index)) = false := by
      cases hb : atStreetIntersection
          (edgeOfPoint auto (jsIndex auto.matched_points m.begin_shape_index)) with
      | false => rfl
      | true => exact absurd (hcond.1 hb) h
    unfold resolveAuto
    simp only [hf, Bool.false_eq_true, if_false]

/-- C5: when `annotateManuever` attaches fields using shape index `i`,
`pedestrianPoint` is the pedestrian matched point at `i`, `autoPoint` and
`autoEdge` are the vehicle point and edge resolved at `i`, and `pedestrianEdge`
is the pedestrian edge at the position given by the vehicle point's
`edge_index`, absent when the pedestrian point is absent or the position is out
of range; the `edge_index` values of the pedestrian points have no influence
on it. -/
theorem cross_trace_lookup (m : Maneuver) (ped auto : MatchedTrace)
    (hattach : jsTruthy (firstName (resolveAuto m auto).autoEdge) = true) :
    ∃ m1 vp k,
      annotateManuever m ped auto = Except.ok m1 ∧
      jsIndex auto.matched_points (resolveAuto m auto).shapeIndex = some vp ∧
      vp.edge_index = some k ∧
      m1.pedestrianPoint = jsIndex ped.matched_points (resolveAuto m auto).shapeIndex ∧
      m1.pedestrianEdge =
        (if (jsIndex ped.matched_points (resolveAuto m auto).shapeIndex).isSome = true
          then jsIndex ped.edges k else none) ∧
      m1.autoPoint = some vp ∧
      m1.autoEdge = jsIndex auto.edges k ∧
      ∀ ped2 : MatchedTrace, ped2.edges = ped.edges →
        ped2.matched_points.length = ped.matched_points.length →
        ∃ m2, annotateManuever m ped2 auto = Except.ok m2 ∧
          m2.pedestrianEdge = m1.pedestrianEdge := by
  obtain ⟨e, he⟩ := jsTruthy_firstName_some hattach
  have hedge := resolveAuto_edge m auto
  rw [he] at hedge
  obtain ⟨vp, k, hp, hk, hek⟩ := edgeOfPoint_some hedge.symm
  have hped : ∀ p : MatchedTrace,
      (annotated m p (resolveAuto m auto)).pedestrianEdge =
        (if (jsIndex p.matched_points (resolveAuto m auto).shapeIndex).isSome = true
          then jsIndex p.edges k else none) := by
    intro p
    simp only [annotated, hp]
    cases jsIndex p.matched_points (resolveAuto m auto).shapeIndex with
    | none => rfl
    | some pp => simp [edgeOfPoint, hk]
  refine ⟨annotated m ped (resolveAuto m auto), vp, k, annotateManuever_named m ped auto hattach,
    ?_, hk, rfl, hped ped, hp, ?_, ?_⟩
  · rw [← resolveAuto_point]
    exact hp
  · show (resolveAuto m auto).autoEdge = _
    rw [he, hek]
  · intro ped2 hedges hlen
    refine ⟨annotated m ped2 (resolveAuto m auto), annotateManuever_named m ped2 auto hattach, ?_⟩
    rw [hped ped2, hped ped, hedges]
    have hsame : (jsIndex ped2.matched_points (resolveAuto m auto).shapeIndex).isSome
        = (jsIndex ped.matched_points (resolveAuto m auto).shapeIndex).isSome := by
      rw [Bool.eq_iff_iff, jsIndex_isSome_iff, jsIndex_isSome_iff, hlen]
    rw [hsame]

theorem cross_trace_lookup_witness :
    jsTruthy (firstName (resolveAuto maneuverC traceC).autoEdge) = true ∧
    ((annotateManuever maneuverC pedC traceC).toOption.bind fun m1 => m1.pedestrianEdge)
      = some (namedEdge "north sidewalk") ∧
    ∃ m1 vp k,
      annotateManuever maneuverC pedC traceC = Except.ok m1 ∧
      jsIndex traceC.matched_points (resolveAuto maneuverC traceC).shapeIndex = some vp ∧
      vp.edge_index = some k ∧
      m1.pedestrianPoint = jsIndex pedC.matched_points (resolveAuto maneuverC traceC).shapeIndex ∧
      m1.pedestrianEdge =
        (if (jsIndex pedC.matched_points (resolveAuto maneuverC traceC).shapeIndex).isSome = true
          then jsIndex pedC.edges k else none) ∧
      m1.autoPoint = some vp ∧
      m1.autoEdge = jsIndex traceC.edges k ∧
      ∀ ped2 : MatchedTrace, ped2.edges = pedC.edges →
        ped2.matched_points.length = pedC.matched_points.length →
        ∃ m2, annotateManuever maneuverC ped2 traceC = Except.ok m2 ∧
          m2.pedestrianEdge = m1.pedestrianEdge :=
  ⟨by decide, by decide, cross_trace_lookup maneuverC pedC traceC (by decide)⟩

theorem ambiguity_check_once_witness :
    (resolveAuto maneuverC traceC).shapeIndex = 11 ∧
    ((annotateManuever maneuverC pedC traceC).toOption.bind fun m1 => firstName m1.autoEdge)
      = some "5th Ave" := by
  obtain ⟨l, hl, hann, _, _, _, _⟩ := ambiguity_check_once maneuverC pedC traceC
  subst hl
  rw [hann]
  exact ⟨by decide, by decide⟩

/-- C8: `annotateManuever` completes without failing for every maneuver and
every pair of traces, whatever the shape indices; and when the vehicle lookup
at the index finally used meets an index at or beyond the number of matched
points, a point without `edge_index`, or an `edge_index` at or beyond the number
of edges, the resolved edge is absent and the maneuver is returned as it
was. -/
theorem unsnapped_never_error (m : Maneuver) (ped auto : MatchedTrace) :
    ∃ m1, annotateManuever m ped auto = Except.ok m1 ∧
      (((auto.matched_points.length : Int) ≤ (resolveAuto m auto).shapeIndex ∨
          (∃ p, jsIndex auto.matched_points (resolveAuto m auto).shapeIndex = some p ∧
            p.edge_index = none) ∨
          (∃ p k, jsIndex auto.matched_points (resolveAuto m auto).shapeIndex = some p ∧
            p.edge_index = some k ∧ (auto.edges.length : Int) ≤ k)) →
        (resolveAuto m auto).autoEdge = none ∧ m1 = m) := by
  refine ⟨_, annotateManuever_eq m ped auto, ?_⟩
  intro h
  have hnone : (resolveAuto m auto).autoEdge = none := by
    rw [resolveAuto_edge, resolveAuto_point]
    rcases h with h | ⟨p, hp, hk⟩ | ⟨p, k, hp, hk, hlen⟩
    · rw [jsIndex_eq_none_of_le _ _ h]
      rfl
    · rw [hp]
      simp [edgeOfPoint, hk]
    · rw [hp]
      simp [edgeOfPoint, hk, jsIndex_eq_none_of_le _ _ hlen]
  refine ⟨hnone, ?_⟩
  rw [hnone]
  simp [firstName, jsTruthy]

theorem unsnapped_never_error_witness :
    (traceC.matched_points.length : Int) ≤ (resolveAuto maneuverBeyond traceC).shapeIndex ∧
    annotateManuever maneuverBeyond pedC traceC = Except.ok maneuverBeyond := by
  obtain ⟨m1, hm1, h⟩ := unsnapped_never_error maneuverBeyond pedC traceC
  have hle : (traceC.matched_points.length : Int)
      ≤ (resolveAuto maneuverBeyond traceC).shapeIndex := by decide
  rw [hm1, (h (Or.inl hle)).2]
  exact ⟨hle, rfl⟩

/-- C6: for an initially unannotated maneuver of the leg whose vehicle edge,
as found by `annotateManuever`, has no street name, whatever the instruction
text and the `internal_intersection` flag: `annotateManuever` attaches no
field, `rewriteInstruction` returns false and leaves `rewritten_instruction`
unset, and after `receiveMatch` the maneuver is unchanged and its list entry
shows the original instruction text. -/
theorem unnamed_edge_left_alone (leg : RouteLeg) (ped auto : MatchedTrace) (i : Nat)
    (m : Maneuver) (e : Edge)
    (hm : leg.maneuvers[i]? = some m)
    (hfresh : m.pedestrianPoint = none ∧ m.pedestrianEdge = none ∧ m.autoPoint = none ∧
      m.autoEdge = none ∧ m.rewritten_instruction = none)
    (hedge : (resolveAuto m auto).autoEdge = some e)
    (hnames : e.names = none ∨ e.names = some []) :
    annotateManuever m ped auto = Except.ok m ∧
    (∀ prev next, rewriteInstruction m prev next = (false, m)) ∧
    ∃ leg1 items, receiveMatch leg ped auto = Except.ok (leg1, items) ∧
      leg1.maneuvers[i]? = some m ∧
      items[i]? = some { className := "", text := m.instruction } := by
  have hfalsy : jsTruthy (firstName (resolveAuto m auto).autoEdge) = false := by
    rw [hedge]
    rcases hnames with h | h <;> simp [firstName, h, jsTruthy]
  have hrw : ∀ prev next, rewriteInstruction m prev next = (false, m) :=
    fun prev next => rewriteInstruction_unannotated m prev next hfresh.2.2.2.1
  refine ⟨annotateManuever_unnamed m ped auto hfalsy, hrw, _, _, receiveMatch_eq leg ped auto, ?_⟩
  have hann : (leg.maneuvers.map fun m =>
      if jsTruthy (firstName (resolveAuto m auto).autoEdge) = true
        then annotated m ped (resolveAuto m auto) else m)[i]? = some m := by
    rw [List.getElem?_map, hm]
    simp [hfalsy]
  obtain ⟨p, n, hpn⟩ := rewriteLoop_getElem none _ i m hann
  rw [hrw] at hpn
  refine ⟨hpn, ?_⟩
  simp only [populateInstructions, List.getElem?_map, hpn, Option.map_some']
  simp [instructionItem, hfresh.2.2.2.2, jsTruthy, jsOr]

theorem unnamed_edge_left_alone_witness :
    annotateManuever maneuverB traceB traceB = Except.ok maneuverB ∧
    (∀ prev next, rewriteInstruction maneuverB prev next = (false, maneuverB)) ∧
    ∃ leg1 items, receiveMatch legB traceB traceB = Except.ok (leg1, items) ∧
      leg1.maneuvers[0]? = some maneuverB ∧
      items[0]? = some { className := "", text := maneuverB.instruction } :=
  unnamed_edge_left_alone legB traceB traceB 0 maneuverB unnamedEdge (by decide) (by decide)
    (by decide) (by decide)

/-- C7 fails on the code: with a decoded shape of three coordinates and traces
of one matched point each, `receiveMatch` reports no error and both annotates
and rewrites the maneuver. -/
theorem misaligned_traces_not_rejected :
    pedMisaligned.matched_points.length ≠ legMisaligned.shape.length ∧
    autoMisaligned.matched_points.length ≠ legMisaligned.shape.length ∧
    ∃ leg1 items,
      receiveMatch legMisaligned pedMisaligned autoMisaligned = Except.ok (leg1, items) ∧
      leg1.maneuvers.map (fun m => m.autoEdge) = [some (namedEdge "Elm Street")] ∧
      leg1.maneuvers.map (fun m => m.rewritten_instruction)
        = [some "Cross Elm Street at the crosswalk to your left."] ∧
      items = [{ className := "rewritten",
                 text := "Cross Elm Street at the crosswalk to your left." }] :=
  ⟨by decide, by decide, _, _, receiveMatch_eq legMisaligned pedMisaligned autoMisaligned,
    by decide, by decide, by decide⟩

/-- C7 as amended: `receiveMatch` compares no length. For every route leg and
every pair of traces, aligned with the decoded shape or not, it reports no
error, returns one maneuver and one list item per maneuver, and its result does
not depend on the decoded shape; a vehicle lookup at an index at or beyond the
number of matched points finds nothing, so an unannotated maneuver whose final
lookup index lies there is returned as it was. -/
theorem receiveMatch_no_length_check (leg : RouteLeg) (ped auto : MatchedTrace) :
    ∃ leg1 items,
      receiveMatch leg ped auto = Except.ok (leg1, items) ∧
      leg1.shape = leg.shape ∧
      leg1.maneuvers.length = leg.maneuvers.length ∧
      items = leg1.maneuvers.map instructionItem ∧
      (∀ shape2 : List (Int × Int),
        receiveMatch { leg with shape := shape2 } ped auto
          = Except.ok ({ leg1 with shape := shape2 }, items)) ∧
      ∀ (i : Nat) (m : Maneuver), leg.maneuvers[i]? = some m → m.autoEdge = none →
        (auto.matched_points.length : Int) ≤ (resolveAuto m auto).shapeIndex →
        leg1.maneuvers[i]? = some m := by
  refine ⟨_, _, receiveMatch_eq leg ped auto, rfl, ?_, rfl, ?_, ?_⟩
  · simp [rewriteLoop_length]
  · intro shape2
    rw [receiveMatch_eq]
    rfl
  · intro i m hm hfresh hle
    have hnone : (resolveAuto m auto).autoEdge = none := by
      rw [resolveAuto_edge, resolveAuto_point, jsIndex_eq_none_of_le _ _ hle]
      rfl
    have hann : (leg.maneuvers.map fun m =>
        if jsTruthy (firstName (resolveAuto m auto).autoEdge) = true
          then annotated m ped (resolveAuto m auto) else m)[i]? = some m := by
      rw [List.getElem?_map, hm]
      simp [hnone, firstName, jsTruthy]
    obtain ⟨p, n, hpn⟩ := rewriteLoop_getElem none _ i m hann
    rw [rewriteInstruction_unannotated m p n hfresh] at hpn
    exact hpn

theorem receiveMatch_no_length_check_witness :
    ∃ leg1 items,
      receiveMatch { shape := [], maneuvers := [maneuverBeyond] } pedC traceC
        = Except.ok (leg1, items) ∧
      leg1.maneuvers[0]? = some maneuverBeyond := by
  obtain ⟨leg1, items, h, _, _, _, _, hkeep⟩ :=
    receiveMatch_no_length_check { shape := [], maneuvers := [maneuverBeyond] } pedC traceC
  exact ⟨leg1, items, h, hkeep 0 maneuverBeyond (by decide) (by decide) (by decide)⟩

/-- C10: for a maneuver with an attached `autoEdge` whose first name is `N`,
and `D` left or right, `rewriteInstruction` produces the text of rule 3,
"Turn D and follow N.", exactly when `internal_intersection` is false and the
instruction begins with "Turn D onto the walkway" followed by a character that
is not a line terminator; an instruction that begins with
"Turn D onto the crosswalk" followed by such a character is rewritten by
rule 2 instead. -/
theorem rule_three_iff_walkway (m : Maneuver) (prev next : Option Maneuver) (e : Edge)
    (D N : String) (hedge : m.autoEdge = some e) (hname : firstName (some e) = some N)
    (hD : D = "left" ∨ D = "right") :
    (rewriteInstruction m prev next =
        (true, { m with
          rewritten_instruction := some ("Turn " ++ D ++ " and follow " ++ N ++ ".") }) ↔
      (e.internal_intersection = false ∧
        ∃ c rest, m.instruction.data = ("Turn " ++ D ++ " onto the walkway").data ++ c :: rest ∧
          isLineTerminator c = false)) ∧
    (∀ (D2 : String) (c : Char) (rest : List Char), (D2 = "left" ∨ D2 = "right") →
        e.internal_intersection = false →
        m.instruction.data = ("Turn " ++ D2 ++ " onto the crosswalk").data ++ c :: rest →
        isLineTerminator c = false →
        rewriteInstruction m prev next =
          (true, { m with
            rewritten_instruction :=
              some ("Cross " ++ N ++ " at the crosswalk to your " ++ D2 ++ ".") })) := by
  have hstr : ∀ (b : Bool) (x y : String),
      ((b, { m with rewritten_instruction := some x }) : Bool × Maneuver)
        = (true, { m with rewritten_instruction := some y }) → x = y := by
    intro b x y h
    have h2 := congrArg (fun r : Bool × Maneuver => r.2.rewritten_instruction) h
    simpa using h2
  constructor
  · constructor
    · intro h
      cases hint : e.internal_intersection with
      | true =>
        exfalso
        rw [rewriteInstruction_internal m prev next e hedge hint] at h
        have hd := congrArg String.data (hstr _ _ _ h)
        simp [String.data_append] at hd
      | false =>
        refine ⟨rfl, ?_⟩
        cases h2 : matchTurnCrosswalk m.instruction.data with
        | some d =>
          exfalso
          rw [rewriteInstruction_crosswalk m prev next e d hedge hint h2] at h
          have hd := congrArg String.data (hstr _ _ _ h)
          simp [String.data_append] at hd
        | none =>
          cases h3 : matchTurnOnto m.instruction.data with
          | some d =>
            rw [rewriteInstruction_onto m prev next e d hedge hint h2 h3, hname] at h
            have h4 := congrArg String.data (hstr _ _ _ h)
            obtain ⟨hd, w, c, r, hw, hs, hc⟩ := (matchTurnOnto_iff _ _).1 h3
            have hdD : d = D := by
              rcases hd with hd | hd <;> rcases hD with hD | hD <;> subst hd <;> subst hD
              · rfl
              · simp [String.data_append] at h4
              · simp [String.data_append] at h4
              · rfl
            subst hdD
            rcases hw with hw | hw
            · refine ⟨c, r, ?_, hc⟩
              rw [hs, hw]
              simp [String.data_append]
            · exfalso
              have h5 : matchTurnCrosswalk m.instruction.data = some d :=
                (matchTurnCrosswalk_iff _ _).2 ⟨hd, c, r, by rw [hs, hw]; simp, hc⟩
              rw [h2] at h5
              exact Option.noConfusion h5
          | none =>
            cases h5 : matchWalk m.instruction.data with
            | some w =>
              exfalso
              rw [rewriteInstruction_walk m prev next e w hedge hint h2 h3 h5] at h
              have hd := congrArg String.data (hstr _ _ _ h)
              simp [String.data_append] at hd
            | none =>
              exfalso
              rw [rewriteInstruction_no_rule m prev next e hedge hint h2 h3 h5] at h
              simp at h
    · rintro ⟨hint, c, rest, hs, hc⟩
      have h3 : matchTurnOnto m.instruction.data = some D := by
        refine (matchTurnOnto_iff _ _).2 ⟨hD, "walkway".data, c, rest, Or.inl rfl, ?_, hc⟩
        rw [hs]
        simp [String.data_append]
      have h2 : matchTurnCrosswalk m.instruction.data = none := by
        cases h : matchTurnCrosswalk m.instruction.data with
        | none => rfl
        | some d =>
          exfalso
          obtain ⟨hd, c2, r2, hs2, _⟩ := (matchTurnCrosswalk_iff _ _).1 h
          rw [hs] at hs2
          rcases hd with hd | hd <;> rcases hD with hD | hD <;> subst hd <;> subst hD <;>
            simp [String.data_append] at hs2
      rw [rewriteInstruction_onto m prev next e D hedge hint h2 h3, hname]
      rfl
  · intro D2 c rest hD2 hint hs hc
    have h2 : matchTurnCrosswalk m.instruction.data = some D2 := by
      refine (matchTurnCrosswalk_iff _ _).2 ⟨hD2, c, rest, ?_, hc⟩
      rw [hs]
      simp [String.data_append]
    rw [rewriteInstruction_crosswalk m prev next e D2 hedge hint h2, hname]
    rfl

theorem rule_three_iff_walkway_witness :
    ((rewriteInstruction maneuverWalkway none none =
        (true, { maneuverWalkway with
          rewritten_instruction :=
            some ("Turn " ++ "right" ++ " and follow " ++ "Elm Street" ++ ".") }) ↔
      ((namedEdge "Elm Street").internal_intersection = false ∧
        ∃ c rest, maneuverWalkway.instruction.data
            = ("Turn " ++ "right" ++ " onto the walkway").data ++ c :: rest ∧
          isLineTerminator c = false)) ∧
    (∀ (D2 : String) (c : Char) (rest : List Char), (D2 = "left" ∨ D2 = "right") →
        (namedEdge "Elm Street").internal_intersection = false →
        maneuverWalkway.instruction.data
          = ("Turn " ++ D2 ++ " onto the crosswalk").data ++ c :: rest →
        isLineTerminator c = false →
        rewriteInstruction maneuverWalkway none none =
          (true, { maneuverWalkway with
            rewritten_instruction :=
              some ("Cross " ++ "Elm Street" ++ " at the crosswalk to your " ++ D2 ++ ".") }))) ∧
    (rewriteInstruction maneuverWalkway none none).2.rewritten_instruction
      = some "Turn right and follow Elm Street." :=
  ⟨rule_three_iff_walkway maneuverWalkway none none (namedEdge "Elm Street") "right"
      "Elm Street" (by decide) (by decide) (by decide),
    by decide⟩

end SidewalkSidekick
